import Mathlib

/-!
# Verification of the Dock Resolution & Cross-Project Assignment Aggregation Engine

A shallow embedding, in Lean 4, of the assignment-aggregation core of the
Basecamp MCP server (the TypeScript functions `findBestUserMatch`,
`calculateAssignmentSeverity`, `getMyAssignments`, `getAssignmentWorkload`,
`calculateRelevanceScore`, `getStaleAssignments`).

Modelling conventions:
* JavaScript strings are `List Char`; `s.toLowerCase()` is a `Char.toLower`
  map, `s.includes(t)` is a substring test, `s.startsWith(t)` a head test.
* JavaScript timestamps (`Date.getTime()`) are `Int` milliseconds since the
  epoch; a date-only `due_on` string is an `Int` day number, and
  `new Date(due_on)` is `due_on * dayMs` (midnight UTC).  The runtime is
  assumed to operate in UTC (`toDateString`, `getDay` use the UTC calendar),
  which matches the Cloudflare Workers environment the server runs on.
* `Math.floor(a / b)` on integer inputs is `Int.fdiv a b`.
* A fallible remote fetch is a `Fetch α` value: `ok` with the parsed JSON
  payload for a 2xx response, `failed` for a non-2xx status, a network
  error, or a JSON parse error.
-/

namespace Basecamp

/-- Milliseconds in one day, the constant `1000 * 60 * 60 * 24` of the source. -/
def dayMs : Int := 1000 * 60 * 60 * 24

/-! ## String primitives (JavaScript semantics) -/

/-- `s.toLowerCase()`. -/
def lowerStr (s : List Char) : List Char := s.map Char.toLower

/-- `hay.includes(needle)`: `needle` occurs contiguously inside `hay`. -/
def strIncludes : List Char → List Char → Bool
  | [], needle => needle.isEmpty
  | hay@(_ :: t), needle => needle.isPrefixOf hay || strIncludes t needle

/-- `hay.startsWith(needle)`. -/
def strStartsWith (hay needle : List Char) : Bool := needle.isPrefixOf hay

/-- `s.trim()`: strip leading and trailing whitespace. -/
def strTrim (s : List Char) : List Char :=
  ((s.dropWhile Char.isWhitespace).reverse.dropWhile Char.isWhitespace).reverse

/-- Worker for `s.split(/\s+/)`: `acc` holds the current token reversed,
`inWs` records whether the previous character was whitespace (a whitespace
run produces a single separation). -/
def splitWsGo : List Char → List Char → Bool → List (List Char)
  | [], acc, _ => [acc.reverse]
  | c :: rest, acc, inWs =>
    if c.isWhitespace then
      if inWs then splitWsGo rest acc true
      else acc.reverse :: splitWsGo rest [] true
    else splitWsGo rest (c :: acc) false

/-- `s.split(/\s+/)`: split on maximal whitespace runs.  Like the
JavaScript regex split, a leading run yields a leading empty token and a
trailing run a trailing empty token, but interior runs yield no empty
tokens. -/
def splitWs (s : List Char) : List (List Char) := splitWsGo s [] false

/-! ## Relevance scorer (`calculateRelevanceScore`) -/

/-- `calculateRelevanceScore(content, query)` from the source: lower-case
both sides, add 100 for a full-phrase occurrence, 10 per query word found,
and 50 for a match at the start of the content. -/
def calculateRelevanceScore (content query : List Char) : Nat :=
  let contentLower := lowerStr content
  let queryLower := lowerStr query
  let queryWords := splitWs queryLower
  let score : Nat := 0
  let score := if strIncludes contentLower queryLower then score + 100 else score
  let score := queryWords.foldl
    (fun s word => if strIncludes contentLower word then s + 10 else s) score
  let score := if strStartsWith contentLower queryLower then score + 50 else score
  score

/-! ## Severity classifier (`calculateAssignmentSeverity`) -/

/-- The four severity labels the classifier can produce. -/
inductive Severity
  | critical
  | high
  | medium
  | low
deriving DecidableEq, Repr

/-- The fields of a todo or card that `calculateAssignmentSeverity` reads:
`due_on` as a day number (absent for cards and undated todos), `created_at`
as a millisecond timestamp, and the completion flag. -/
structure Assignment where
  dueOn : Option Int
  createdAt : Int
  completed : Bool
deriving DecidableEq, Repr

/-- Rule 1 of the severity chain: overdue by strictly more than 7 whole
days (the JavaScript also requires `daysUntilDue` to be truthy, i.e.
non-zero). -/
def severityCritCond (now : Int) (a : Assignment) : Bool :=
  match a.dueOn with
  | none => false
  | some d =>
    let dueMs := d * dayMs
    let daysUntilDue := Int.fdiv (dueMs - now) dayMs
    decide (dueMs < now) && decide (daysUntilDue ≠ 0) && decide (daysUntilDue.natAbs > 7)

/-- Rule 2 of the severity chain: overdue at all, or due within one day. -/
def severityHighCond (now : Int) (a : Assignment) : Bool :=
  match a.dueOn with
  | none => false
  | some d =>
    let dueMs := d * dayMs
    decide (dueMs < now) || decide (Int.fdiv (dueMs - now) dayMs ≤ 1)

/-- `calculateAssignmentSeverity(assignment)` from the source, with the
current time `now` made an explicit argument.  The four `if`s are evaluated
in source order and the first one that fires decides the label. -/
def calculateAssignmentSeverity (now : Int) (a : Assignment) : Severity :=
  let daysSinceCreated := Int.fdiv (now - a.createdAt) dayMs
  if severityCritCond now a then .critical
  else if severityHighCond now a then .high
  else if decide (daysSinceCreated > 14) && !a.completed then .high
  else if (match a.dueOn with
           | none => false
           | some d => decide (Int.fdiv (d * dayMs - now) dayMs ≤ 7)) then .medium
  else .low

/-! ## Due-date bucketing (the todo filter of `getMyAssignments`) -/

/-- The four due-date buckets a caller can request (`'none'` is modelled as
`Option.none` at the call sites). -/
inductive DueFilter
  | overdue
  | today
  | thisWeek
  | nextWeek
deriving DecidableEq, Repr

/-- `d1.toDateString() === d2.toDateString()` under the UTC calendar: the
two instants fall on the same day. -/
def sameDateStr (t1 t2 : Int) : Bool := Int.fdiv t1 dayMs == Int.fdiv t2 dayMs

/-- `Date.getDay()` under UTC for a day number: 0 = Sunday … 6 = Saturday
(day 0, 1970-01-01, was a Thursday). -/
def dayOfWeek (day : Int) : Int := (day + 4) % 7

/-- The due-date filter applied to each collected todo by
`getMyAssignments` (the `switch (args.due_date_filter)` block): a todo with
no `due_on` is rejected outright; otherwise its due date — the midnight-UTC
instant `due_on * dayMs` — is compared against `now`, today's calendar day,
or the Sunday-anchored current / following 7-day window. -/
def matchesDueFilter (now : Int) (dueOn : Option Int) (f : DueFilter) : Bool :=
  match dueOn with
  | none => false
  | some d =>
    let dueMs := d * dayMs
    match f with
    | .overdue => decide (dueMs < now)
    | .today => sameDateStr dueMs now
    | .thisWeek =>
      let today := Int.fdiv now dayMs
      let weekStart := (today - dayOfWeek today) * dayMs
      decide (weekStart ≤ dueMs) && decide (dueMs < weekStart + 7 * dayMs)
    | .nextWeek =>
      let today := Int.fdiv now dayMs
      let nextWeekStart := (today - dayOfWeek today + 7) * dayMs
      decide (nextWeekStart ≤ dueMs) && decide (dueMs < nextWeekStart + 7 * dayMs)

/-! ## Fuzzy user matching (`findBestUserMatch`) -/

/-- A Basecamp person as read by `findBestUserMatch`: `name` and
`email_address` may be absent (the source guards them with `?.`). -/
structure PersonRec where
  id : Nat
  name : Option (List Char)
  email : Option (List Char)
deriving DecidableEq, Repr

/-- The result of `findBestUserMatch`: an exact match, or no match plus up
to five partial-match suggestions. -/
structure MatchResult where
  user : Option PersonRec
  suggestions : List PersonRec
deriving DecidableEq, Repr

/-- `/^\d+$/.test(identifier)`. -/
def isAllDigits (s : List Char) : Bool := !s.isEmpty && s.all Char.isDigit

/-- `parseInt` on a digit-only string. -/
def parseDigits (s : List Char) : Nat :=
  s.foldl (fun a c => a * 10 + (c.toNat - 48)) 0

/-- `findBestUserMatch(identifier, users)` from the source: empty inputs
yield no match; otherwise try an exact numeric-id match (only when the
identifier is all digits), then an exact lower-cased email match, then an
exact lower-cased name match; failing all three, return no user and the
first five users whose name or email contains the normalized identifier. -/
def findBestUserMatch (identifier : List Char) (users : List PersonRec) :
    MatchResult :=
  if identifier.isEmpty || users.isEmpty then ⟨none, []⟩
  else
    let normId := strTrim (lowerStr identifier)
    let idHit := if isAllDigits identifier then
        users.find? (fun u => u.id == parseDigits identifier)
      else none
    match idHit with
    | some u => ⟨some u, []⟩
    | none =>
      match users.find? (fun u =>
          match u.email with
          | some e => lowerStr e == normId
          | none => false) with
      | some u => ⟨some u, []⟩
      | none =>
        match users.find? (fun u =>
            match u.name with
            | some n => lowerStr n == normId
            | none => false) with
        | some u => ⟨some u, []⟩
        | none =>
          ⟨none, (users.filter (fun u =>
              strIncludes (lowerStr (u.name.getD [])) normId ||
              strIncludes (lowerStr (u.email.getD [])) normId)).take 5⟩

/-! ## Cross-project aggregation (`getMyAssignments`) -/

/-- Outcome of one remote fetch: `ok` carries the parsed 2xx payload,
`failed` stands for a non-2xx status, a network error, or a parse error
(all treated alike by the source's `if (!response.ok)` guards and `catch`
blocks). -/
inductive Fetch (α : Type)
  | ok (val : α)
  | failed
deriving DecidableEq, Repr

/-- The todo fields the aggregation reads. -/
structure Todo where
  id : Nat
  content : List Char
  assigneeIds : List Nat
  completed : Bool
  dueOn : Option Int
deriving DecidableEq, Repr

/-- One todolist of a todoset, together with the outcome of fetching its
`todos_url`. -/
structure Todolist where
  title : List Char
  todos : Fetch (List Todo)
deriving DecidableEq, Repr

/-- The payload of a todoset fetch. -/
structure Todoset where
  todolists : List Todolist
deriving DecidableEq, Repr

/-- The card fields the aggregation reads. -/
structure Card where
  id : Nat
  title : List Char
  assigneeIds : List Nat
deriving DecidableEq, Repr

/-- One card-table column with its embedded cards. -/
structure Column where
  title : List Char
  cards : List Card
deriving DecidableEq, Repr

/-- The payload of a card-table fetch. -/
structure CardTable where
  columns : List Column
deriving DecidableEq, Repr

/-- One schedule entry (`starts_at` as a millisecond timestamp). -/
structure ScheduleEntry where
  id : Nat
  startsAt : Int
deriving DecidableEq, Repr

/-- The payload of a schedule fetch. -/
structure Schedule where
  entries : List ScheduleEntry
deriving DecidableEq, Repr

/-- A project detail as the aggregation reads it: for each of the three
capabilities, `none` means the project's dock has no entry of that name
(`dock.find(...)` returned `undefined`), and `some f` means the dock entry
exists and following it produced fetch outcome `f`. -/
structure ProjectDetail where
  dockTodoset : Option (Fetch Todoset)
  dockCardTable : Option (Fetch CardTable)
  dockSchedule : Option (Fetch Schedule)
deriving DecidableEq, Repr

/-- A project from the project list, together with the outcome of fetching
its detail (`GET projects/{id}.json`). -/
structure Project where
  id : Nat
  name : List Char
  detail : Fetch ProjectDetail
deriving DecidableEq, Repr

/-- The `getMyAssignments` arguments the core loop reads. -/
structure MyAssignArgs where
  includeCompleted : Bool
  dueDateFilter : Option DueFilter
deriving DecidableEq, Repr

/-- A collected todo with the project/todolist annotations the source
attaches before pushing it onto `allTodos`. -/
structure MyTodo where
  todo : Todo
  projectId : Nat
  projectName : List Char
  todolistName : List Char
deriving DecidableEq, Repr

/-- A collected card with its project/column annotations. -/
structure MyCard where
  card : Card
  projectId : Nat
  projectName : List Char
  columnName : List Char
deriving DecidableEq, Repr

/-- A collected schedule entry with its project annotations. -/
structure MySched where
  entry : ScheduleEntry
  projectId : Nat
  projectName : List Char
deriving DecidableEq, Repr

/-- The aggregation accumulator and result.  The JSON payload
`getMyAssignments` returns contains `todos`, `cards`, `schedule_entries`
and no per-project error list; `errors` records exactly the per-project
failure entries the function places into its returned payload (console
logging is not part of the payload), so the aggregation never appends to
it. -/
structure AggResult where
  allTodos : List MyTodo
  allCards : List MyCard
  allSched : List MySched
  errors : List Nat
deriving DecidableEq, Repr

/-- Insert `x` into the already-sorted `acc` after every element that
compares `le` to it (so later elements stay after equal earlier ones). -/
def insertSorted {α : Type} (le : α → α → Bool) : List α → α → List α
  | [], x => [x]
  | y :: ys, x => if le y x then y :: insertSorted le ys x else x :: y :: ys

/-- `Array.prototype.sort` with comparator-induced order `le`: ECMAScript
requires the sort to be stable, and a stable sort under a total preorder
has a unique output, here computed as a stable insertion sort. -/
def sortJs {α : Type} (le : α → α → Bool) (l : List α) : List α :=
  l.foldl (insertSorted le) []

/-- The todo branch of the per-project loop: resolve the `todoset` dock
entry, and for each todolist whose todos fetch succeeded keep the todos
assigned to the current user (dropping completed ones unless
`include_completed`), annotated with project and todolist names. -/
def collectTodos (args : MyAssignArgs) (uid : Nat) (p : Project)
    (detail : ProjectDetail) : List MyTodo :=
  match detail.dockTodoset with
  | none => []
  | some .failed => []
  | some (.ok ts) =>
    ts.todolists.foldl (fun acc tl =>
      match tl.todos with
      | .failed => acc
      | .ok todos =>
        acc ++ (todos.filter (fun t =>
            t.assigneeIds.contains uid && (args.includeCompleted || !t.completed))).map
          (fun t => ⟨t, p.id, p.name, tl.title⟩)) []

/-- The card branch of the per-project loop: resolve the `kanban_board`
dock entry, fetch the card table, and keep the cards assigned to the
current user, annotated with project and column names. -/
def collectCards (uid : Nat) (p : Project) (detail : ProjectDetail) :
    List MyCard :=
  match detail.dockCardTable with
  | none => []
  | some .failed => []
  | some (.ok ct) =>
    ct.columns.foldl (fun acc col =>
      acc ++ (col.cards.filter (fun c => c.assigneeIds.contains uid)).map
        (fun c => ⟨c, p.id, p.name, col.title⟩)) []

/-- The inline date filter applied to schedule entries (the
`switch (args.due_date_filter)` inside the schedule branch).  The switch
has cases for `today`, `this_week` and `next_week` only; for `overdue`
control falls out of the switch to the trailing `return true`, so every
entry passes. -/
def scheduleEntryMatches (now : Int) (f : DueFilter) (entryMs : Int) : Bool :=
  match f with
  | .today => sameDateStr entryMs now
  | .thisWeek =>
    let today := Int.fdiv now dayMs
    let weekStart := (today - dayOfWeek today) * dayMs
    decide (weekStart ≤ entryMs) && decide (entryMs < weekStart + 7 * dayMs)
  | .nextWeek =>
    let today := Int.fdiv now dayMs
    let nextWeekStart := (today - dayOfWeek today + 7) * dayMs
    decide (nextWeekStart ≤ entryMs) && decide (entryMs < nextWeekStart + 7 * dayMs)
  | .overdue => true

/-- The schedule branch of the per-project loop; it only runs when a
schedule dock entry exists and `due_date_filter` is not `'none'`. -/
def collectSched (args : MyAssignArgs) (now : Int) (p : Project)
    (detail : ProjectDetail) : List MySched :=
  match args.dueDateFilter with
  | none => []
  | some f =>
    match detail.dockSchedule with
    | none => []
    | some .failed => []
    | some (.ok s) =>
      (s.entries.filter (fun e => scheduleEntryMatches now f e.startsAt)).map
        (fun e => ⟨e, p.id, p.name⟩)

/-- One iteration of the `for (const project of filteredProjects)` loop.
A failed project detail fetch hits `if (!projectDetailResponse.ok)
continue;` (or the surrounding `catch`, which only logs): the accumulator,
including `errors`, is left untouched. -/
def processProject (args : MyAssignArgs) (uid : Nat) (now : Int)
    (st : AggResult) (p : Project) : AggResult :=
  match p.detail with
  | .failed => st
  | .ok detail =>
    { st with
      allTodos := st.allTodos ++ collectTodos args uid p detail
      allCards := st.allCards ++ collectCards uid p detail
      allSched := st.allSched ++ collectSched args now p detail }

/-- The comparator of `allTodos.sort(...)`: ascending due date, a missing
due date sorting as `Infinity`. -/
def todoDueLe (a b : MyTodo) : Bool :=
  match a.todo.dueOn, b.todo.dueOn with
  | some x, some y => decide (x ≤ y)
  | some _, none => true
  | none, some _ => false
  | none, none => true

/-- The comparator of `schedule_entries.sort(...)`: ascending start time. -/
def schedLe (a b : MySched) : Bool := decide (a.entry.startsAt ≤ b.entry.startsAt)

/-- The aggregation core of `getMyAssignments`: fold the per-project loop
over the selected projects, then apply the due-date filter to the
collected todos and sort todos and schedule entries as the returned
payload does. -/
def getMyAssignments (args : MyAssignArgs) (uid : Nat) (now : Int)
    (projects : List Project) : AggResult :=
  let st := projects.foldl (processProject args uid now) ⟨[], [], [], []⟩
  let todos := match args.dueDateFilter with
    | some f => st.allTodos.filter (fun (mt : MyTodo) => matchesDueFilter now mt.todo.dueOn f)
    | none => st.allTodos
  { allTodos := sortJs todoDueLe todos
    allCards := st.allCards
    allSched := sortJs schedLe st.allSched
    errors := st.errors }

/-! ## Workload analyzer (`getAssignmentWorkload`) -/

/-- A person from the `GET people.json` payload (`title` may be absent). -/
structure Person where
  id : Nat
  name : List Char
  email : List Char
  title : Option (List Char)
deriving DecidableEq, Repr

/-- The person sub-record the workload map stores (`title` defaulted to
`'No title'`). -/
structure WPerson where
  id : Nat
  name : List Char
  email : List Char
  title : List Char
deriving DecidableEq, Repr

/-- Build the stored person record, applying `person.title || 'No title'`. -/
def mkWPerson (p : Person) : WPerson :=
  ⟨p.id, p.name, p.email, p.title.getD (("No title").toList)⟩

/-- One element of a person's `overdue_details` list. -/
structure OverdueDetail where
  title : List Char
  dueOn : Int
  project : List Char
  todolist : List Char
  daysOverdue : Int
deriving DecidableEq, Repr

/-- A person's accumulating workload record, as initialized by
`workloadMap.set(person.id, {...})`. -/
structure WorkloadAcc where
  person : WPerson
  activeTodos : Nat
  completedTodos : Nat
  overdueTodos : Nat
  cards : Nat
  projects : List (List Char)
  overdueDetails : List OverdueDetail
deriving DecidableEq, Repr

/-- The workload map: a JavaScript `Map` keyed by person id, modelled as an
insertion-ordered association list with unique keys. -/
abbrev WMap := List (Nat × WorkloadAcc)

/-- `Map.set`: overwrite in place when the key exists, append otherwise. -/
def setEntry (m : WMap) (k : Nat) (v : WorkloadAcc) : WMap :=
  if m.any (fun e => e.1 == k) then
    m.map (fun e => if e.1 == k then (e.1, v) else e)
  else m ++ [(k, v)]

/-- `if (workloadMap.has(k)) { mutate workloadMap.get(k) }`: update the
entry when present, do nothing otherwise. -/
def updateEntry (m : WMap) (k : Nat) (f : WorkloadAcc → WorkloadAcc) : WMap :=
  if m.any (fun e => e.1 == k) then
    m.map (fun e => if e.1 == k then (e.1, f e.2) else e)
  else m

/-- `workloadMap` initialization: one zeroed record per person from the
people fetch. -/
def initWorkloadMap (people : List Person) : WMap :=
  people.foldl (fun m p => setEntry m p.id ⟨mkWPerson p, 0, 0, 0, 0, [], []⟩) []

/-- `Set.add` on the insertion-ordered `projects` set. -/
def setAdd (s : List (List Char)) (x : List Char) : List (List Char) :=
  if s.contains x then s else s ++ [x]

/-- Credit one todo to one of its assignees (the body of
`todo.assignees.forEach`): only assignees present in the workload map
count; completed todos bump `completed_todos`, active ones bump
`active_todos` and, when past due, `overdue_todos` plus an overdue-detail
record. -/
def accumTodoAssignee (now : Int) (projectName tlTitle : List Char)
    (t : Todo) (m : WMap) (aid : Nat) : WMap :=
  updateEntry m aid (fun w =>
    let w := { w with projects := setAdd w.projects projectName }
    if t.completed then { w with completedTodos := w.completedTodos + 1 }
    else
      let w := { w with activeTodos := w.activeTodos + 1 }
      match t.dueOn with
      | none => w
      | some d =>
        if d * dayMs < now then
          { w with
            overdueTodos := w.overdueTodos + 1
            overdueDetails := w.overdueDetails ++
              [⟨t.content, d, projectName, tlTitle,
                Int.fdiv (now - d * dayMs) dayMs⟩] }
        else w)

/-- Credit one todo to all of its assignees (`if (todo.assignees &&
todo.assignees.length > 0)` then `forEach`). -/
def accumTodo (now : Int) (projectName tlTitle : List Char) (m : WMap)
    (t : Todo) : WMap :=
  if t.assigneeIds.isEmpty then m
  else t.assigneeIds.foldl (accumTodoAssignee now projectName tlTitle t) m

/-- Credit one card to one of its assignees. -/
def accumCardAssignee (projectName : List Char) (m : WMap) (aid : Nat) :
    WMap :=
  updateEntry m aid (fun w =>
    { w with cards := w.cards + 1, projects := setAdd w.projects projectName })

/-- Credit one card to all of its assignees. -/
def accumCard (projectName : List Char) (m : WMap) (c : Card) : WMap :=
  if c.assigneeIds.isEmpty then m
  else c.assigneeIds.foldl (accumCardAssignee projectName) m

/-- One iteration of the workload `for (const project of
filteredProjects)` loop: a failed project detail fetch is skipped
(`continue`); otherwise the todoset and card-table branches accumulate,
each silently skipping absent dock entries and failed sub-fetches. -/
def workloadProject (now : Int) (m : WMap) (p : Project) : WMap :=
  match p.detail with
  | .failed => m
  | .ok detail =>
    let m1 := match detail.dockTodoset with
      | some (.ok ts) =>
        ts.todolists.foldl (fun acc tl =>
          match tl.todos with
          | .ok todos => todos.foldl (accumTodo now p.name tl.title) acc
          | .failed => acc) m
      | _ => m
    match detail.dockCardTable with
    | some (.ok ct) =>
      ct.columns.foldl (fun acc col => col.cards.foldl (accumCard p.name) acc) m1
    | _ => m1

/-- The five workload tiers. -/
inductive WorkloadStatus
  | no_assignments
  | light
  | moderate
  | heavy
  | overloaded
deriving DecidableEq, Repr

/-- The four risk levels. -/
inductive RiskLevel
  | high
  | medium
  | low
  | none
deriving DecidableEq, Repr

/-- The `workload_status` threshold chain of the source. -/
def workloadStatusOf (total : Nat) : WorkloadStatus :=
  if total == 0 then .no_assignments
  else if total ≤ 3 then .light
  else if total ≤ 8 then .moderate
  else if total ≤ 15 then .heavy
  else .overloaded

/-- The `risk_level` threshold chain of the source. -/
def riskLevelOf (overdue : Nat) : RiskLevel :=
  if overdue > 5 then .high
  else if overdue > 2 then .medium
  else if overdue > 0 then .low
  else .none

/-- One element of the returned `individual_workloads` array.  The
JavaScript also carries a float `completion_rate`; floating point is out
of scope here and no claim mentions it, so the field is not modelled. -/
structure WorkloadEntry where
  person : WPerson
  activeTodos : Nat
  completedTodos : Nat
  overdueTodos : Nat
  cards : Nat
  projects : List (List Char)
  overdueDetails : List OverdueDetail
  totalWorkload : Nat
  workloadStatus : WorkloadStatus
  riskLevel : RiskLevel
deriving DecidableEq, Repr

/-- The `workloadAnalysis` map step: derive `total_workload`,
`workload_status` and `risk_level` from the accumulated counters. -/
def finalizeWorkload (w : WorkloadAcc) : WorkloadEntry :=
  let total := w.activeTodos + w.cards
  ⟨w.person, w.activeTodos, w.completedTodos, w.overdueTodos, w.cards,
    w.projects, w.overdueDetails, total, workloadStatusOf total,
    riskLevelOf w.overdueTodos⟩

/-- The three `sort_by` choices. -/
inductive WorkloadSortBy
  | workload
  | overdueCount
  | byName
deriving DecidableEq, Repr

/-- Lexicographic character-list order, modelling
`a.person.name.localeCompare(b.person.name)` (locale-independent
rendering). -/
def nameLe : List Char → List Char → Bool
  | [], _ => true
  | _ :: _, [] => false
  | a :: as, b :: bs => if a < b then true else if b < a then false else nameLe as bs

/-- The sort comparator of `workloadAnalysis.sort`: workload descending
(default), overdue count descending, or name ascending. -/
def workloadSortLe (s : WorkloadSortBy) (a b : WorkloadEntry) : Bool :=
  match s with
  | .overdueCount => decide (b.overdueTodos ≤ a.overdueTodos)
  | .byName => nameLe a.person.name b.person.name
  | .workload => decide (b.totalWorkload ≤ a.totalWorkload)

/-- The analysis core of `getAssignmentWorkload`: initialize one record
per fetched person, accumulate todos and cards across the selected
projects, derive the per-person metrics, and sort. -/
def getAssignmentWorkload (sortBy : WorkloadSortBy) (now : Int)
    (people : List Person) (projects : List Project) : List WorkloadEntry :=
  let m := initWorkloadMap people
  let m2 := projects.foldl (workloadProject now) m
  sortJs (workloadSortLe sortBy) (m2.map (fun e => finalizeWorkload e.2))

/-! ## Stale-assignment day counters (`getStaleAssignments`) -/

/-- `days_since_activity` as computed in the todo branch of
`getStaleAssignments`: elapsed milliseconds divided by `1000*60*60*24`. -/
def todoDaysSinceActivity (now lastActivity : Int) : Int :=
  Int.fdiv (now - lastActivity) (1000 * 60 * 60 * 24)

/-- `days_since_activity` as computed in the card branch of
`getStaleAssignments`: elapsed milliseconds divided by `1000*60*60*1000`. -/
def cardDaysSinceActivity (now lastActivity : Int) : Int :=
  Int.fdiv (now - lastActivity) (1000 * 60 * 60 * 1000)

/-! ## Statement vocabulary and concrete instances -/

/-- The day number of the most recent Sunday not after the day of `now`:
the anchor of the source's `this_week` window. -/
def sundayOf (now : Int) : Int :=
  Int.fdiv now dayMs - dayOfWeek (Int.fdiv now dayMs)

/-- The key list of a workload map. -/
def keys (m : WMap) : List Nat := m.map (fun e => e.1)

/-- A sample evaluation instant for the severity examples: noon (UTC) of
day 10. -/
def exNow : Int := 10 * dayMs + 43200000

/-- A sample incomplete assignment created two days before `exNow`, with a
configurable due day. -/
def exAssign (dueDay : Int) : Assignment :=
  ⟨some dueDay, exNow - 2 * dayMs, false⟩

/-- Sample people for concrete instantiations. -/
def alicePerson : Person := ⟨1, ("Alice").toList, ("alice@x.co").toList, none⟩

/-- A second sample person. -/
def bobPerson : Person := ⟨2, ("Bob").toList, ("bob@x.co").toList, none⟩

/-- A sample successful project detail holding one todolist with one todo
assigned to user 1. -/
def demoDetail : ProjectDetail :=
  ⟨some (.ok ⟨[⟨("List 1").toList,
      .ok [⟨100, ("Ship it").toList, [1], false, some 12⟩]⟩]⟩), none, none⟩

/-! # Theorems -/

/-- C9: the days-since-activity computation is inconsistent between the
todo branch (divides elapsed milliseconds by `1000*60*60*24`) and the card
branch (divides by `1000*60*60*1000`) of the stale-assignment analysis:
after 10 whole days of inactivity the todo branch reports 10 days and the
card branch reports 0, so the two branches disagree on the same elapsed
time. -/
theorem c9_stale_unit_divergence :
    todoDaysSinceActivity 864000000 0 = 10 ∧
    cardDaysSinceActivity 864000000 0 = 0 ∧
    todoDaysSinceActivity 864000000 0 ≠ cardDaysSinceActivity 864000000 0 := by
  decide

/-- C2: the severity function returns exactly one of
{critical, high, medium, low}; it is a pure function, so recomputing on
identical input (same current time) yields the same label; the rules form
a priority chain (when the critical rule fires the result is critical no
matter what later rules would say, and when it does not but the overdue /
due-within-a-day rule fires the result is high); and the spec's four
examples hold at `exNow` (noon UTC of day 10, todo created two days
earlier, incomplete): due 10 days past is critical, due tomorrow is high,
due in 5 days is medium, due in 30 days is low. -/
theorem c2_severity_chain :
    (∀ (now : Int) (a : Assignment),
        calculateAssignmentSeverity now a = Severity.critical ∨
        calculateAssignmentSeverity now a = Severity.high ∨
        calculateAssignmentSeverity now a = Severity.medium ∨
        calculateAssignmentSeverity now a = Severity.low) ∧
    (∀ (now : Int) (a : Assignment),
        calculateAssignmentSeverity now a = calculateAssignmentSeverity now a) ∧
    (∀ (now : Int) (a : Assignment), severityCritCond now a = true →
        calculateAssignmentSeverity now a = Severity.critical) ∧
    (∀ (now : Int) (a : Assignment), severityCritCond now a = false →
        severityHighCond now a = true →
        calculateAssignmentSeverity now a = Severity.high) ∧
    calculateAssignmentSeverity exNow (exAssign 0) = Severity.critical ∧
    calculateAssignmentSeverity exNow (exAssign 11) = Severity.high ∧
    calculateAssignmentSeverity exNow (exAssign 15) = Severity.medium ∧
    calculateAssignmentSeverity exNow (exAssign 40) = Severity.low := by
  refine ⟨?_, fun now a => rfl, ?_, ?_, by decide, by decide, by decide, by decide⟩
  · intro now a
    cases h : calculateAssignmentSeverity now a <;> simp
  · intro now a h
    simp [calculateAssignmentSeverity, h]
  · intro now a h1 h2
    simp [calculateAssignmentSeverity, h1, h2]

/-- Witness for C2: at `exNow` the assignment due on day 0 satisfies the
critical condition and, the condition discharged through the theorem, is
classified critical; the assignment due on day 11 falls under the second
rule and is classified high. -/
theorem c2_severity_chain_witness :
    severityCritCond exNow (exAssign 0) = true ∧
    calculateAssignmentSeverity exNow (exAssign 0) = Severity.critical ∧
    severityCritCond exNow (exAssign 11) = false ∧
    severityHighCond exNow (exAssign 11) = true ∧
    calculateAssignmentSeverity exNow (exAssign 11) = Severity.high :=
  ⟨by decide, c2_severity_chain.2.2.1 exNow (exAssign 0) (by decide),
    by decide, by decide,
    c2_severity_chain.2.2.2.1 exNow (exAssign 11) (by decide) (by decide)⟩

/-- Folding the word-scoring step over a word list adds exactly 10 per
word satisfying the match predicate. -/
theorem foldl_ten_count (p : List Char → Bool) :
    ∀ (ws : List (List Char)) (init : Nat),
      ws.foldl (fun s word => if p word then s + 10 else s) init =
        init + 10 * ws.countP p := by
  intro ws
  induction ws with
  | nil => intro init; simp
  | cons w ws ih =>
    intro init
    by_cases h : p w
    · simp [h, ih, List.countP_cons]
      ring
    · simp [h, ih, List.countP_cons]

/-- C7: for every text and query, the relevance score is the sum of a
100-point full-phrase bonus, a 50-point starts-with bonus, and 10 points
per query word (query split on whitespace) found in the text — all
compared case-insensitively — and, its codomain being `Nat`, it is a
non-negative integer. -/
theorem c7_relevance_score_formula (content query : List Char) :
    calculateRelevanceScore content query =
      (if strIncludes (lowerStr content) (lowerStr query) then 100 else 0) +
      10 * ((splitWs (lowerStr query)).countP
          (fun word => strIncludes (lowerStr content) word)) +
      (if strStartsWith (lowerStr content) (lowerStr query) then 50 else 0) := by
  simp only [calculateRelevanceScore]
  rw [foldl_ten_count]
  by_cases h1 : strIncludes (lowerStr content) (lowerStr query) <;>
    by_cases h2 : strStartsWith (lowerStr content) (lowerStr query) <;>
      simp [h1, h2]

/-- `strIncludes` decides contiguous-substring occurrence. -/
theorem strIncludes_iff :
    ∀ (hay needle : List Char), strIncludes hay needle = true ↔ needle <:+: hay := by
  intro hay needle
  induction hay with
  | nil => simp [strIncludes, List.isEmpty_iff, List.infix_nil]
  | cons c t ih =>
    rw [strIncludes, Bool.or_eq_true, ih, List.isPrefixOf_iff_prefix,
      List.infix_cons_iff]

/-- A match at the start of the text is in particular an occurrence. -/
theorem strStartsWith_includes (hay needle : List Char)
    (h : strStartsWith hay needle = true) : strIncludes hay needle = true := by
  rw [strIncludes_iff]
  rw [strStartsWith, List.isPrefixOf_iff_prefix] at h
  exact h.isInfix

/-- Every token produced by the whitespace-splitting worker occurs
contiguously in the input (the accumulator holds the current token
reversed, and `inWs = true` only arises with an empty accumulator). -/
theorem splitWsGo_sub :
    ∀ (s acc : List Char) (b : Bool), (b = true → acc = []) →
      ∀ w ∈ splitWsGo s acc b, w <:+: acc.reverse ++ s := by
  intro s
  induction s with
  | nil =>
    intro acc b _ w hw
    simp only [splitWsGo, List.mem_singleton] at hw
    subst hw
    simp [List.infix_rfl]
  | cons c rest ih =>
    intro acc b hb w hw
    cases b with
    | true =>
      have hacc := hb rfl
      subst hacc
      simp only [splitWsGo] at hw
      by_cases hc : c.isWhitespace
      · rw [if_pos hc] at hw
        exact List.infix_cons (ih [] true (fun _ => rfl) w hw)
      · rw [if_neg hc] at hw
        have := ih [c] false (by simp) w hw
        simpa using this
    | false =>
      simp only [splitWsGo] at hw
      by_cases hc : c.isWhitespace
      · rw [if_pos hc] at hw
        rcases List.mem_cons.mp hw with hv | hv
        · subst hv
          exact (List.prefix_append acc.reverse (c :: rest)).isInfix
        · have h1 : w <:+: rest := by
            simpa using ih [] true (fun _ => rfl) w hv
          have h2 : rest <:+: acc.reverse ++ c :: rest := by
            have := (List.suffix_append (acc.reverse ++ [c]) rest).isInfix
            simpa using this
          exact h1.trans h2
      · rw [if_neg hc] at hw
        have := ih (c :: acc) false (by simp) w hw
        simpa using this

/-- Every word the scorer splits the query into occurs contiguously in the
query. -/
theorem splitWs_word_sub (q w : List Char) (h : w ∈ splitWs q) : w <:+: q := by
  have := splitWsGo_sub q [] false (by simp) w h
  simpa using this

/-- C8: a text containing the full query as a (case-insensitive) substring
scores at least as high as any text that does not — the exact-phrase match
dominates every individual-word-only match of the same query. -/
theorem c8_phrase_dominates (t1 t2 q : List Char)
    (h1 : strIncludes (lowerStr t1) (lowerStr q) = true)
    (h2 : strIncludes (lowerStr t2) (lowerStr q) = false) :
    calculateRelevanceScore t2 q ≤ calculateRelevanceScore t1 q := by
  have hW : (splitWs (lowerStr q)).countP
      (fun word => strIncludes (lowerStr t1) word) =
      (splitWs (lowerStr q)).length := by
    rw [List.countP_eq_length]
    intro w hw
    rw [strIncludes_iff]
    exact (splitWs_word_sub _ _ hw).trans ((strIncludes_iff _ _).mp h1)
  have h2' : strStartsWith (lowerStr t2) (lowerStr q) = false := by
    cases hs : strStartsWith (lowerStr t2) (lowerStr q)
    · rfl
    · rw [strStartsWith_includes _ _ hs] at h2
      exact absurd h2 (by simp)
  have hb : (splitWs (lowerStr q)).countP
      (fun word => strIncludes (lowerStr t2) word) ≤
      (splitWs (lowerStr q)).length := List.countP_le_length _
  rw [c7_relevance_score_formula, c7_relevance_score_formula, h1, h2, h2', hW]
  simp only [if_true, if_false]
  by_cases h3 : strStartsWith (lowerStr t1) (lowerStr q) <;> simp [h3] <;> omega

/-- Witness for C8: `"hello world"` contains the query `"hello world"` as
a phrase while `"world says hello"` only matches its individual words; the
theorem applies and indeed 20 ≤ 170. -/
theorem c8_phrase_dominates_witness :
    strIncludes (lowerStr (("hello world").toList))
        (lowerStr (("hello world").toList)) = true ∧
    strIncludes (lowerStr (("world says hello").toList))
        (lowerStr (("hello world").toList)) = false ∧
    calculateRelevanceScore (("world says hello").toList) (("hello world").toList) ≤
      calculateRelevanceScore (("hello world").toList) (("hello world").toList) :=
  ⟨by decide, by decide,
    c8_phrase_dominates (("hello world").toList) (("world says hello").toList)
      (("hello world").toList) (by decide) (by decide)⟩

/-- C4 counterexample: with the current time at noon UTC of day 0, an item
due on day 0 — that is, `due_on == today` — nevertheless matches the
`overdue` bucket, because the source compares the due date's midnight
instant against the current instant (`new Date(todo.due_on) < now`), not
day against day.  The claim's "matches overdue iff due_on < today" is
therefore false at this input. -/
theorem c4_overdue_counterexample :
    matchesDueFilter 43200000 (some 0) DueFilter.overdue = true ∧
    ¬((0 : Int) < Int.fdiv 43200000 dayMs) := by
  decide

/-- C4 (amended): an item with no due date matches no bucket; `today`,
`this_week` and `next_week` are exactly as the claim states (calendar-day
equality, and the Sunday-anchored current / following 7-day windows); but
`overdue` holds iff the instant at the start of `due_on` (midnight UTC) is
strictly before the current instant — so an item due today counts as
overdue whenever the current time is past midnight, not only when
`due_on < today`. -/
theorem c4_due_bucketing (now d : Int) (f : DueFilter) :
    matchesDueFilter now none f = false ∧
    (matchesDueFilter now (some d) DueFilter.overdue = true ↔ d * dayMs < now) ∧
    (matchesDueFilter now (some d) DueFilter.today = true ↔
      d = Int.fdiv now dayMs) ∧
    (matchesDueFilter now (some d) DueFilter.thisWeek = true ↔
      sundayOf now ≤ d ∧ d < sundayOf now + 7) ∧
    (matchesDueFilter now (some d) DueFilter.nextWeek = true ↔
      sundayOf now + 7 ≤ d ∧ d < sundayOf now + 14) := by
  refine ⟨rfl, by simp [matchesDueFilter], ?_, ?_, ?_⟩
  · simp only [matchesDueFilter, sameDateStr, beq_iff_eq]
    rw [Int.mul_fdiv_cancel d (by decide : dayMs ≠ 0)]
  · simp only [matchesDueFilter, sundayOf, Bool.and_eq_true, decide_eq_true_iff]
    generalize (Int.fdiv now dayMs - dayOfWeek (Int.fdiv now dayMs)) = s
    simp only [dayMs]
    omega
  · simp only [matchesDueFilter, sundayOf, Bool.and_eq_true, decide_eq_true_iff]
    generalize (Int.fdiv now dayMs - dayOfWeek (Int.fdiv now dayMs)) = s
    simp only [dayMs]
    omega

/-- `findBestUserMatch` returns either an exact match with no suggestions,
or no match with either no suggestions (empty inputs) or the first five
partial matches. -/
theorem findBestUserMatch_cases (ident : List Char) (users : List PersonRec) :
    (∃ u, findBestUserMatch ident users = ⟨some u, []⟩) ∨
    findBestUserMatch ident users = ⟨none, []⟩ ∨
    findBestUserMatch ident users =
      ⟨none, (users.filter (fun u =>
          strIncludes (lowerStr (u.name.getD [])) (strTrim (lowerStr ident)) ||
          strIncludes (lowerStr (u.email.getD [])) (strTrim (lowerStr ident)))).take 5⟩ := by
  unfold findBestUserMatch
  dsimp only
  split
  · exact Or.inr (Or.inl rfl)
  · split
    · exact Or.inl ⟨_, rfl⟩
    · split
      · exact Or.inl ⟨_, rfl⟩
      · split
        · exact Or.inl ⟨_, rfl⟩
        · exact Or.inr (Or.inr rfl)

/-- C3: assignee resolution tries exact matches in order — numeric id
(only when the identifier is all digits), then email, then
case-insensitive name, the first hit winning — and when none hits it
returns no matched user together with at most 5 suggestions, each of which
contains the normalized identifier as a case-insensitive substring of its
name or email; in particular, searching `"john"` against John Doe, Johnny
Lee and Ann returns exactly the two John entries as suggestions and
excludes Ann. -/
theorem c3_assignee_resolution :
    (∀ (ident : List Char) (users : List PersonRec),
      (findBestUserMatch ident users).user = none →
        (findBestUserMatch ident users).suggestions.length ≤ 5 ∧
        ∀ u ∈ (findBestUserMatch ident users).suggestions,
          strIncludes (lowerStr (u.name.getD [])) (strTrim (lowerStr ident)) = true ∨
          strIncludes (lowerStr (u.email.getD [])) (strTrim (lowerStr ident)) = true) ∧
    (∀ (ident : List Char) (users : List PersonRec),
      ident.isEmpty = false → users.isEmpty = false →
      (findBestUserMatch ident users).user =
        ((if isAllDigits ident then
            users.find? (fun u => u.id == parseDigits ident)
          else none).orElse
          (fun _ => users.find? (fun u =>
            match u.email with
            | some e => lowerStr e == strTrim (lowerStr ident)
            | none => false))).orElse
          (fun _ => users.find? (fun u =>
            match u.name with
            | some n => lowerStr n == strTrim (lowerStr ident)
            | none => false))) ∧
    findBestUserMatch (("john").toList)
        [⟨1, some (("John Doe").toList), none⟩,
         ⟨2, some (("Johnny Lee").toList), none⟩,
         ⟨3, some (("Ann").toList), none⟩] =
      ⟨none, [⟨1, some (("John Doe").toList), none⟩,
              ⟨2, some (("Johnny Lee").toList), none⟩]⟩ := by
  refine ⟨?_, ?_, by decide⟩
  · intro ident users h
    rcases findBestUserMatch_cases ident users with ⟨u, hu⟩ | hu | hu
    · rw [hu] at h
      exact absurd h (by simp)
    · rw [hu]
      simp
    · rw [hu]
      refine ⟨List.length_take_le _ _, ?_⟩
      intro u hu2
      have hmem := List.mem_of_mem_take hu2
      have hp := (List.mem_filter.mp hmem).2
      exact Bool.or_eq_true _ _ |>.mp hp
  · intro ident users h1 h2
    unfold findBestUserMatch
    rw [if_neg (by simp [h1, h2])]
    dsimp only
    split
    · simp only [*]
      simp [Option.orElse]
    · split
      · simp only [*]
        simp [Option.orElse]
      · split
        · simp only [*]
          simp [Option.orElse]
        · simp only [*]
          simp [Option.orElse]

/-- Witness for C3: the `"john"` search has no exact match, so the theorem
applies: at most five suggestions, and indeed no matched user; the
ordered-tries characterization also applies to this non-empty input. -/
theorem c3_assignee_resolution_witness :
    (findBestUserMatch (("john").toList)
        [⟨1, some (("John Doe").toList), none⟩,
         ⟨2, some (("Johnny Lee").toList), none⟩,
         ⟨3, some (("Ann").toList), none⟩]).user = none ∧
    (findBestUserMatch (("john").toList)
        [⟨1, some (("John Doe").toList), none⟩,
         ⟨2, some (("Johnny Lee").toList), none⟩,
         ⟨3, some (("Ann").toList), none⟩]).suggestions.length ≤ 5 :=
  ⟨by decide,
    (c3_assignee_resolution.1 (("john").toList)
        [⟨1, some (("John Doe").toList), none⟩,
         ⟨2, some (("Johnny Lee").toList), none⟩,
         ⟨3, some (("Ann").toList), none⟩] (by decide)).1⟩

/-- Inserting into a sorted list grows it by one element. -/
theorem insertSorted_length {α : Type} (le : α → α → Bool) :
    ∀ (acc : List α) (x : α), (insertSorted le acc x).length = acc.length + 1 := by
  intro acc x
  induction acc with
  | nil => rfl
  | cons y ys ih =>
    rw [insertSorted]
    by_cases h : le y x <;> simp [h, ih]

/-- The stable sort is a permutation in particular: it preserves length. -/
theorem sortJs_length {α : Type} (le : α → α → Bool) (l : List α) :
    (sortJs le l).length = l.length := by
  suffices hgen : ∀ (l acc : List α), (l.foldl (insertSorted le) acc).length =
      acc.length + l.length by
    simpa using hgen l []
  intro l
  induction l with
  | nil => intro acc; simp
  | cons x xs ih =>
    intro acc
    rw [List.foldl_cons, ih, insertSorted_length]
    simp only [List.length_cons]
    omega

/-- Membership in an insertion step. -/
theorem insertSorted_mem {α : Type} (le : α → α → Bool) :
    ∀ (acc : List α) (x a : α), a ∈ insertSorted le acc x ↔ a ∈ acc ∨ a = x := by
  intro acc x a
  induction acc with
  | nil => simp [insertSorted]
  | cons y ys ih =>
    rw [insertSorted]
    by_cases h : le y x
    · simp [h, ih]
      tauto
    · simp [h]
      tauto

/-- The stable sort preserves membership. -/
theorem sortJs_mem {α : Type} (le : α → α → Bool) (l : List α) (a : α) :
    a ∈ sortJs le l ↔ a ∈ l := by
  suffices hgen : ∀ (l acc : List α), a ∈ l.foldl (insertSorted le) acc ↔
      a ∈ acc ∨ a ∈ l by
    simpa using hgen l []
  intro l
  induction l with
  | nil => intro acc; simp
  | cons x xs ih =>
    intro acc
    rw [List.foldl_cons, ih, insertSorted_mem]
    simp
    tauto

/-- One iteration of the aggregation loop never touches the error list of
the returned payload (a failed project is skipped, not recorded). -/
theorem processProject_errors (args : MyAssignArgs) (uid : Nat) (now : Int)
    (st : AggResult) (p : Project) :
    (processProject args uid now st p).errors = st.errors := by
  unfold processProject
  split <;> rfl

/-- The whole project fold leaves the error list untouched. -/
theorem foldl_processProject_errors (args : MyAssignArgs) (uid : Nat)
    (now : Int) :
    ∀ (projects : List Project) (st : AggResult),
      (projects.foldl (processProject args uid now) st).errors = st.errors := by
  intro projects
  induction projects with
  | nil => intro st; rfl
  | cons p ps ih =>
    intro st
    rw [List.foldl_cons, ih, processProject_errors]

/-- `getMyAssignments` returns an empty error list on every input: project
failures are only logged, never reported in the payload. -/
theorem getMyAssignments_errors (args : MyAssignArgs) (uid : Nat) (now : Int)
    (projects : List Project) :
    (getMyAssignments args uid now projects).errors = [] := by
  unfold getMyAssignments
  dsimp only
  rw [foldl_processProject_errors]

/-- C1 counterexample: aggregating over project 42 (whose detail fetch
fails) and project 7 (which succeeds with one assigned todo), the returned
error list is empty — not `[42]` as the claim requires: the failure of
project 42 is silently skipped (`continue` after `!response.ok`, `catch`
that only logs), with no per-project error record in the payload. -/
theorem c1_errors_counterexample :
    (getMyAssignments ⟨false, none⟩ 1 0
        [⟨42, ("Alpha").toList, Fetch.failed⟩,
         ⟨7, ("Beta").toList, Fetch.ok demoDetail⟩]).errors ≠ [42] ∧
    (getMyAssignments ⟨false, none⟩ 1 0
        [⟨42, ("Alpha").toList, Fetch.failed⟩,
         ⟨7, ("Beta").toList, Fetch.ok demoDetail⟩]).errors = [] := by
  decide

/-- C1 (amended): for every pair of projects where A's fetch fails and B's
succeeds, the aggregation returns exactly what aggregating over B alone
returns — A contributes zero items and no item gathered from B is dropped
or corrupted — but A's failure is not recorded anywhere in the returned
payload: the error list is empty, not `[A]`. -/
theorem c1_failed_project_isolation (args : MyAssignArgs) (uid : Nat)
    (now : Int) (idA idB : Nat) (nameA nameB : List Char)
    (detailB : ProjectDetail) :
    getMyAssignments args uid now
        [⟨idA, nameA, Fetch.failed⟩, ⟨idB, nameB, Fetch.ok detailB⟩] =
      getMyAssignments args uid now [⟨idB, nameB, Fetch.ok detailB⟩] ∧
    (getMyAssignments args uid now
        [⟨idA, nameA, Fetch.failed⟩, ⟨idB, nameB, Fetch.ok detailB⟩]).errors = [] :=
  ⟨rfl, getMyAssignments_errors _ _ _ _⟩

/-- C5: a project whose capability directory has no todo-set entry
contributes zero todo work items and zero errors: the absent capability is
skipped silently (`dock.find` returns `undefined`, the branch is not
entered), never recorded as a failure. -/
theorem c5_todoset_absent (args : MyAssignArgs) (uid : Nat) (now : Int)
    (pid : Nat) (pname : List Char) (detail : ProjectDetail)
    (h : detail.dockTodoset = none) :
    (getMyAssignments args uid now [⟨pid, pname, Fetch.ok detail⟩]).allTodos = [] ∧
    (getMyAssignments args uid now [⟨pid, pname, Fetch.ok detail⟩]).errors = [] := by
  refine ⟨?_, getMyAssignments_errors _ _ _ _⟩
  unfold getMyAssignments
  dsimp only
  simp only [List.foldl_cons, List.foldl_nil]
  simp [processProject, collectTodos, h]
  cases args.dueDateFilter <;> simp [sortJs]

/-- Witness for C5: a concrete project detail with an empty dock satisfies
the hypothesis, and the aggregation over it indeed returns no todos. -/
theorem c5_todoset_absent_witness :
    (⟨none, none, none⟩ : ProjectDetail).dockTodoset = none ∧
    (getMyAssignments ⟨false, none⟩ 1 0
        [⟨5, ("Gamma").toList, Fetch.ok ⟨none, none, none⟩⟩]).allTodos = [] :=
  ⟨rfl, (c5_todoset_absent ⟨false, none⟩ 1 0 5 (("Gamma").toList)
      ⟨none, none, none⟩ rfl).1⟩

/-- Setting a fresh key appends the binding at the end of the map. -/
theorem setEntry_fresh (m : WMap) (k : Nat) (v : WorkloadAcc)
    (h : k ∉ keys m) : setEntry m k v = m ++ [(k, v)] := by
  unfold setEntry
  rw [if_neg]
  intro hc
  rcases List.any_eq_true.mp hc with ⟨e, he, hk⟩
  exact h (List.mem_map.mpr ⟨e, he, by simpa using hk⟩)

/-- The keys of a workload map after appending a binding. -/
theorem keys_append (m : WMap) (k : Nat) (v : WorkloadAcc) :
    keys (m ++ [(k, v)]) = keys m ++ [k] := by
  simp [keys]

/-- Updating an entry never changes the key list. -/
theorem updateEntry_keys (m : WMap) (k : Nat) (f : WorkloadAcc → WorkloadAcc) :
    keys (updateEntry m k f) = keys m := by
  unfold updateEntry
  split
  · simp only [keys, List.map_map]
    apply List.map_congr_left
    intro e _
    by_cases h : e.1 = k <;> simp [h]
  · rfl

/-- Updating an absent key is a no-op. -/
theorem updateEntry_absent (m : WMap) (k : Nat) (f : WorkloadAcc → WorkloadAcc)
    (h : k ∉ keys m) : updateEntry m k f = m := by
  unfold updateEntry
  rw [if_neg]
  intro hc
  rcases List.any_eq_true.mp hc with ⟨e, he, hk⟩
  exact h (List.mem_map.mpr ⟨e, he, by simpa using hk⟩)

/-- An element of an updated map is an old element or an updated old
element with the same key. -/
theorem updateEntry_mem_cases (m : WMap) (k : Nat)
    (f : WorkloadAcc → WorkloadAcc) (e : Nat × WorkloadAcc)
    (he : e ∈ updateEntry m k f) :
    e ∈ m ∨ ∃ e2 ∈ m, e = (e2.1, f e2.2) := by
  unfold updateEntry at he
  split at he
  · rcases List.mem_map.mp he with ⟨a, ha, hae⟩
    by_cases h : a.1 == k
    · rw [h] at hae
      simp at hae
      exact Or.inr ⟨a, ha, hae.symm⟩
    · rw [if_neg (by simpa using h)] at hae
      exact Or.inl (hae ▸ ha)
  · exact Or.inl he

/-- An element of a map after `setEntry` is an old element or carries the
inserted value. -/
theorem setEntry_mem_cases (m : WMap) (k : Nat) (v : WorkloadAcc)
    (e : Nat × WorkloadAcc) (he : e ∈ setEntry m k v) :
    e ∈ m ∨ e.2 = v := by
  unfold setEntry at he
  split at he
  · rcases List.mem_map.mp he with ⟨a, ha, hae⟩
    by_cases h : a.1 == k
    · rw [h] at hae
      simp at hae
      right
      rw [← hae]
    · rw [if_neg (by simpa using h)] at hae
      exact Or.inl (hae ▸ ha)
  · rcases List.mem_append.mp he with h | h
    · exact Or.inl h
    · right
      simp at h
      rw [h]

/-- A property of map entries survives a fold whose every step preserves
it. -/
theorem foldl_mem_pres {β : Type} (l : List β) (g : WMap → β → WMap)
    (P : Nat × WorkloadAcc → Prop)
    (hg : ∀ m b, b ∈ l → (∀ e ∈ m, P e) → ∀ e ∈ g m b, P e) :
    ∀ (m : WMap), (∀ e ∈ m, P e) → ∀ e ∈ l.foldl g m, P e := by
  induction l with
  | nil =>
    intro m hm
    simpa using hm
  | cons x xs ih =>
    intro m hm
    rw [List.foldl_cons]
    exact ih (fun m2 b hb => hg m2 b (List.mem_cons_of_mem x hb))
      (g m x) (hg m x (List.mem_cons_self x xs) hm)

/-- A fold whose every step preserves the map's length preserves it. -/
theorem foldl_len_pres {β : Type} (g : WMap → β → WMap)
    (hg : ∀ m b, (g m b).length = m.length) :
    ∀ (l : List β) (m : WMap), (l.foldl g m).length = m.length := by
  intro l
  induction l with
  | nil => intro m; rfl
  | cons x xs ih =>
    intro m
    rw [List.foldl_cons, ih, hg]

/-- Updating an entry preserves the map's length. -/
theorem updateEntry_length (m : WMap) (k : Nat)
    (f : WorkloadAcc → WorkloadAcc) :
    (updateEntry m k f).length = m.length := by
  unfold updateEntry
  split <;> simp

/-- Crediting a todo to one assignee preserves the map's length. -/
theorem accumTodoAssignee_length (now : Int) (pn tl : List Char) (t : Todo)
    (m : WMap) (aid : Nat) :
    (accumTodoAssignee now pn tl t m aid).length = m.length := by
  unfold accumTodoAssignee
  exact updateEntry_length _ _ _

/-- Crediting a todo preserves the map's length. -/
theorem accumTodo_length (now : Int) (pn tl : List Char) (m : WMap)
    (t : Todo) : (accumTodo now pn tl m t).length = m.length := by
  unfold accumTodo
  split
  · rfl
  · exact foldl_len_pres _ (fun m2 a => accumTodoAssignee_length now pn tl t m2 a) _ m

/-- Crediting a card preserves the map's length. -/
theorem accumCard_length (pn : List Char) (m : WMap) (c : Card) :
    (accumCard pn m c).length = m.length := by
  unfold accumCard
  split
  · rfl
  · exact foldl_len_pres _ (fun m2 a => by
      unfold accumCardAssignee
      exact updateEntry_length _ _ _) _ m

/-- The todoset branch of the workload loop preserves the map's length. -/
theorem todosetFold_length (now : Int) (pname : List Char) (ts : Todoset)
    (m : WMap) :
    (ts.todolists.foldl (fun acc tl =>
      match tl.todos with
      | .ok todos => todos.foldl (accumTodo now pname tl.title) acc
      | .failed => acc) m).length = m.length := by
  apply foldl_len_pres
  intro m2 tl
  split
  · exact foldl_len_pres _ (fun m3 t => accumTodo_length now pname tl.title m3 t) _ m2
  · rfl

/-- The card branch of the workload loop preserves the map's length. -/
theorem cardFold_length (pname : List Char) (ct : CardTable) (m : WMap) :
    (ct.columns.foldl (fun acc col =>
      col.cards.foldl (accumCard pname) acc) m).length = m.length := by
  apply foldl_len_pres
  intro m2 col
  exact foldl_len_pres _ (fun m3 c => accumCard_length pname m3 c) _ m2

/-- One workload loop iteration preserves the map's length: workload
analysis never creates or deletes per-person records. -/
theorem workloadProject_length (now : Int) (m : WMap) (p : Project) :
    (workloadProject now m p).length = m.length := by
  unfold workloadProject
  split
  · rfl
  · dsimp only
    split
    · rw [cardFold_length]
      split
      · rw [todosetFold_length]
      · rfl
    · split
      · rw [todosetFold_length]
      · rfl

/-- With pairwise distinct ids, initializing the workload map appends one
zeroed record per person, in order. -/
theorem initWorkloadMap_eq :
    ∀ (people : List Person) (m : WMap),
      (∀ p ∈ people, p.id ∉ keys m) → (people.map Person.id).Nodup →
      people.foldl (fun m2 p => setEntry m2 p.id ⟨mkWPerson p, 0, 0, 0, 0, [], []⟩) m =
        m ++ people.map (fun p => (p.id, ⟨mkWPerson p, 0, 0, 0, 0, [], []⟩)) := by
  intro people
  induction people with
  | nil =>
    intro m _ _
    simp
  | cons p ps ih =>
    intro m hfresh hnodup
    have hnd : (∀ x ∈ ps, ¬x.id = p.id) ∧ (List.map Person.id ps).Nodup := by
      simpa using hnodup
    rw [List.foldl_cons, setEntry_fresh m p.id _ (hfresh p (List.mem_cons_self p ps)),
      ih _ ?_ hnd.2]
    · simp
    · intro q hq
      rw [keys_append]
      simp only [List.mem_append, List.mem_singleton]
      push_neg
      exact ⟨hfresh q (List.mem_cons_of_mem p hq), hnd.1 q hq⟩

/-- With pairwise distinct ids, the initialized map has one record per
person. -/
theorem initWorkloadMap_length (people : List Person)
    (h : (people.map Person.id).Nodup) :
    (initWorkloadMap people).length = people.length := by
  unfold initWorkloadMap
  rw [initWorkloadMap_eq people [] (by simp [keys]) h]
  simp

/-- Every record of the initialized map has all counters zero. -/
theorem initWorkloadMap_zero (people : List Person) :
    ∀ e ∈ initWorkloadMap people,
      e.2.activeTodos = 0 ∧ e.2.completedTodos = 0 ∧
      e.2.overdueTodos = 0 ∧ e.2.cards = 0 := by
  unfold initWorkloadMap
  apply foldl_mem_pres people _
    (fun e => e.2.activeTodos = 0 ∧ e.2.completedTodos = 0 ∧
      e.2.overdueTodos = 0 ∧ e.2.cards = 0)
  · intro m p _ hm e he
    rcases setEntry_mem_cases m p.id _ e he with h | h
    · exact hm e h
    · simp [h]
  · intro e he
    simp at he

/-- The workload-status threshold chain, spelled out. -/
theorem workloadStatusOf_spec (t : Nat) :
    (t = 0 → workloadStatusOf t = WorkloadStatus.no_assignments) ∧
    (0 < t → t ≤ 3 → workloadStatusOf t = WorkloadStatus.light) ∧
    (3 < t → t ≤ 8 → workloadStatusOf t = WorkloadStatus.moderate) ∧
    (8 < t → t ≤ 15 → workloadStatusOf t = WorkloadStatus.heavy) ∧
    (15 < t → workloadStatusOf t = WorkloadStatus.overloaded) := by
  unfold workloadStatusOf
  refine ⟨fun h => ?_, fun h1 h2 => ?_, fun h1 h2 => ?_, fun h1 h2 => ?_,
    fun h1 => ?_⟩ <;>
    split_ifs <;> first | rfl | omega | simp_all

/-- The risk-level threshold chain, spelled out. -/
theorem riskLevelOf_spec (o : Nat) :
    (5 < o → riskLevelOf o = RiskLevel.high) ∧
    (2 < o → o ≤ 5 → riskLevelOf o = RiskLevel.medium) ∧
    (0 < o → o ≤ 2 → riskLevelOf o = RiskLevel.low) ∧
    (o = 0 → riskLevelOf o = RiskLevel.none) := by
  unfold riskLevelOf
  refine ⟨fun h1 => ?_, fun h1 h2 => ?_, fun h1 h2 => ?_, fun h => ?_⟩ <;>
    split_ifs <;> first | rfl | omega

/-- Every element of the analysis output is the finalization of some
accumulated record. -/
theorem getAssignmentWorkload_mem (sortBy : WorkloadSortBy) (now : Int)
    (people : List Person) (projects : List Project) (entry : WorkloadEntry)
    (he : entry ∈ getAssignmentWorkload sortBy now people projects) :
    ∃ e ∈ (projects.foldl (workloadProject now) (initWorkloadMap people)),
      entry = finalizeWorkload e.2 := by
  unfold getAssignmentWorkload at he
  dsimp only at he
  rw [sortJs_mem] at he
  rcases List.mem_map.mp he with ⟨e, hem, hfe⟩
  exact ⟨e, hem, hfe.symm⟩

/-- C6: workload analysis over N people with pairwise-distinct ids returns
exactly N entries (people with zero assignments included); with zero work
items (no projects to draw items from) every entry has
`workload_status = no_assignments` and `total_workload = 0`; and every
entry's `workload_status` is determined by the claimed `total_workload`
thresholds (0, ≤3, ≤8, ≤15, else) and its `risk_level` by the claimed
`overdue_todos` thresholds (>5, >2, >0, else), with
`total_workload = active_todos + cards`. -/
theorem c6_workload_metrics :
    (∀ (sortBy : WorkloadSortBy) (now : Int) (people : List Person)
        (projects : List Project), (people.map Person.id).Nodup →
        (getAssignmentWorkload sortBy now people projects).length =
          people.length) ∧
    (∀ (sortBy : WorkloadSortBy) (now : Int) (people : List Person)
        (entry : WorkloadEntry),
        entry ∈ getAssignmentWorkload sortBy now people [] →
        entry.workloadStatus = WorkloadStatus.no_assignments ∧
        entry.totalWorkload = 0) ∧
    (∀ (sortBy : WorkloadSortBy) (now : Int) (people : List Person)
        (projects : List Project) (entry : WorkloadEntry),
        entry ∈ getAssignmentWorkload sortBy now people projects →
        entry.totalWorkload = entry.activeTodos + entry.cards ∧
        (entry.totalWorkload = 0 →
          entry.workloadStatus = WorkloadStatus.no_assignments) ∧
        (0 < entry.totalWorkload → entry.totalWorkload ≤ 3 →
          entry.workloadStatus = WorkloadStatus.light) ∧
        (3 < entry.totalWorkload → entry.totalWorkload ≤ 8 →
          entry.workloadStatus = WorkloadStatus.moderate) ∧
        (8 < entry.totalWorkload → entry.totalWorkload ≤ 15 →
          entry.workloadStatus = WorkloadStatus.heavy) ∧
        (15 < entry.totalWorkload →
          entry.workloadStatus = WorkloadStatus.overloaded) ∧
        (5 < entry.overdueTodos → entry.riskLevel = RiskLevel.high) ∧
        (2 < entry.overdueTodos → entry.overdueTodos ≤ 5 →
          entry.riskLevel = RiskLevel.medium) ∧
        (0 < entry.overdueTodos → entry.overdueTodos ≤ 2 →
          entry.riskLevel = RiskLevel.low) ∧
        (entry.overdueTodos = 0 → entry.riskLevel = RiskLevel.none)) := by
  refine ⟨?_, ?_, ?_⟩
  · intro s now people projects h
    unfold getAssignmentWorkload
    dsimp only
    rw [sortJs_length, List.length_map,
      foldl_len_pres (workloadProject now)
        (fun m p => workloadProject_length now m p) projects _,
      initWorkloadMap_length people h]
  · intro s now people entry he
    rcases getAssignmentWorkload_mem s now people [] entry he with ⟨e, hem, hfe⟩
    rw [List.foldl_nil] at hem
    have hz := initWorkloadMap_zero people e hem
    subst hfe
    unfold finalizeWorkload
    dsimp only
    rw [hz.1, hz.2.2.2]
    exact ⟨rfl, rfl⟩
  · intro s now people projects entry he
    rcases getAssignmentWorkload_mem s now people projects entry he with
      ⟨e, hem, hfe⟩
    subst hfe
    have hs := workloadStatusOf_spec (e.2.activeTodos + e.2.cards)
    have hr := riskLevelOf_spec e.2.overdueTodos
    unfold finalizeWorkload
    dsimp only
    exact ⟨rfl, hs.1, hs.2.1, hs.2.2.1, hs.2.2.2.1, hs.2.2.2.2,
      hr.1, hr.2.1, hr.2.2.1, hr.2.2.2⟩

/-- Witness for C6: two people with distinct ids and no projects — the
analysis returns exactly two entries, and the entry finalized from Alice's
zeroed record is in the output with `no_assignments`, zero total workload
and no risk. -/
theorem c6_workload_metrics_witness :
    ([alicePerson, bobPerson].map Person.id).Nodup ∧
    (getAssignmentWorkload WorkloadSortBy.workload 0
        [alicePerson, bobPerson] []).length = 2 ∧
    finalizeWorkload ⟨mkWPerson alicePerson, 0, 0, 0, 0, [], []⟩ ∈
      getAssignmentWorkload WorkloadSortBy.workload 0
        [alicePerson, bobPerson] [] ∧
    (finalizeWorkload ⟨mkWPerson alicePerson, 0, 0, 0, 0, [], []⟩).workloadStatus =
      WorkloadStatus.no_assignments ∧
    (finalizeWorkload ⟨mkWPerson alicePerson, 0, 0, 0, 0, [], []⟩).totalWorkload = 0 ∧
    (finalizeWorkload ⟨mkWPerson alicePerson, 0, 0, 0, 0, [], []⟩).riskLevel =
      RiskLevel.none :=
  ⟨by decide,
    c6_workload_metrics.1 WorkloadSortBy.workload 0 [alicePerson, bobPerson] []
      (by decide),
    by decide,
    (c6_workload_metrics.2.1 WorkloadSortBy.workload 0 [alicePerson, bobPerson]
      (finalizeWorkload ⟨mkWPerson alicePerson, 0, 0, 0, 0, [], []⟩) (by decide)).1,
    (c6_workload_metrics.2.1 WorkloadSortBy.workload 0 [alicePerson, bobPerson]
      (finalizeWorkload ⟨mkWPerson alicePerson, 0, 0, 0, 0, [], []⟩) (by decide)).2,
    (c6_workload_metrics.2.2 WorkloadSortBy.workload 0 [alicePerson, bobPerson] []
      (finalizeWorkload ⟨mkWPerson alicePerson, 0, 0, 0, 0, [], []⟩)
      (by decide)).2.2.2.2.2.2.2.2.2 (by decide)⟩

/-- Crediting a todo to assignees none of which the map knows is a no-op. -/
theorem accumTodo_unknown (now : Int) (pn tl : List Char) (m : WMap)
    (t : Todo) (h : ∀ a ∈ t.assigneeIds, a ∉ keys m) :
    accumTodo now pn tl m t = m := by
  unfold accumTodo
  split
  · rfl
  · suffices hgen : ∀ (ids : List Nat) (m2 : WMap),
        (∀ a ∈ ids, a ∉ keys m2) →
        ids.foldl (accumTodoAssignee now pn tl t) m2 = m2 from
      hgen t.assigneeIds m h
    intro ids
    induction ids with
    | nil =>
      intro m2 _
      rfl
    | cons a as ih =>
      intro m2 hm
      rw [List.foldl_cons]
      have hstep : accumTodoAssignee now pn tl t m2 a = m2 := by
        unfold accumTodoAssignee
        exact updateEntry_absent m2 a _ (hm a (List.mem_cons_self a as))
      rw [hstep]
      exact ih m2 (fun b hb => hm b (List.mem_cons_of_mem a hb))

/-- Crediting a card to assignees none of which the map knows is a no-op. -/
theorem accumCard_unknown (pn : List Char) (m : WMap) (c : Card)
    (h : ∀ a ∈ c.assigneeIds, a ∉ keys m) : accumCard pn m c = m := by
  unfold accumCard
  split
  · rfl
  · suffices hgen : ∀ (ids : List Nat) (m2 : WMap),
        (∀ a ∈ ids, a ∉ keys m2) →
        ids.foldl (accumCardAssignee pn) m2 = m2 from
      hgen c.assigneeIds m h
    intro ids
    induction ids with
    | nil =>
      intro m2 _
      rfl
    | cons a as ih =>
      intro m2 hm
      rw [List.foldl_cons]
      have hstep : accumCardAssignee pn m2 a = m2 := by
        unfold accumCardAssignee
        exact updateEntry_absent m2 a _ (hm a (List.mem_cons_self a as))
      rw [hstep]
      exact ih m2 (fun b hb => hm b (List.mem_cons_of_mem a hb))

/-- An entry-wise property survives `updateEntry` whenever the update
function preserves it. -/
theorem updateEntry_pres_P (m : WMap) (k : Nat)
    (f : WorkloadAcc → WorkloadAcc) (P : Nat × WorkloadAcc → Prop)
    (hf : ∀ e : Nat × WorkloadAcc, P e → P (e.1, f e.2))
    (hm : ∀ e ∈ m, P e) : ∀ e ∈ updateEntry m k f, P e := by
  intro e he
  rcases updateEntry_mem_cases m k f e he with h | ⟨e2, he2, hee⟩
  · exact hm e h
  · rw [hee]
    exact hf e2 (hm e2 he2)

/-- Crediting a todo to one assignee never changes which person a record
belongs to. -/
theorem accumTodoAssignee_pres (now : Int) (pn tl : List Char) (t : Todo)
    (ids : List Nat) (m : WMap) (aid : Nat)
    (hm : ∀ e ∈ m, e.2.person.id ∈ ids) :
    ∀ e ∈ accumTodoAssignee now pn tl t m aid, e.2.person.id ∈ ids := by
  unfold accumTodoAssignee
  apply updateEntry_pres_P m aid _ _ ?_ hm
  intro e hP
  dsimp only
  repeat' split
  all_goals simpa using hP

/-- Crediting a todo keeps every record with its person. -/
theorem accumTodo_pres (now : Int) (pn tl : List Char) (ids : List Nat)
    (m : WMap) (t : Todo) (hm : ∀ e ∈ m, e.2.person.id ∈ ids) :
    ∀ e ∈ accumTodo now pn tl m t, e.2.person.id ∈ ids := by
  unfold accumTodo
  split
  · exact hm
  · exact foldl_mem_pres t.assigneeIds _ _
      (fun m2 aid _ hm2 => accumTodoAssignee_pres now pn tl t ids m2 aid hm2)
      m hm

/-- Crediting a card keeps every record with its person. -/
theorem accumCard_pres (pn : List Char) (ids : List Nat) (m : WMap)
    (c : Card) (hm : ∀ e ∈ m, e.2.person.id ∈ ids) :
    ∀ e ∈ accumCard pn m c, e.2.person.id ∈ ids := by
  unfold accumCard
  split
  · exact hm
  · refine foldl_mem_pres c.assigneeIds _ _ ?_ m hm
    intro m2 aid _ hm2
    unfold accumCardAssignee
    apply updateEntry_pres_P m2 aid _ _ ?_ hm2
    intro e hP
    simpa using hP

/-- The todoset stage of the workload loop keeps every record with its
person. -/
theorem todosetStage_pres (now : Int) (pname : List Char) (ts : Todoset)
    (ids : List Nat) (m : WMap) (hm : ∀ e ∈ m, e.2.person.id ∈ ids) :
    ∀ e ∈ ts.todolists.foldl (fun acc tl =>
        match tl.todos with
        | .ok todos => todos.foldl (accumTodo now pname tl.title) acc
        | .failed => acc) m, e.2.person.id ∈ ids := by
  refine foldl_mem_pres _ _ _ ?_ m hm
  intro m2 tl _ hm2 e2 he2
  revert he2
  split
  · rename_i todos _
    exact fun he2 => foldl_mem_pres todos _ _
      (fun m3 t _ hm3 => accumTodo_pres now pname tl.title ids m3 t hm3)
      m2 hm2 e2 he2
  · exact fun he2 => hm2 e2 he2

/-- The card stage of the workload loop keeps every record with its
person. -/
theorem cardStage_pres (pname : List Char) (ct : CardTable)
    (ids : List Nat) (m : WMap) (hm : ∀ e ∈ m, e.2.person.id ∈ ids) :
    ∀ e ∈ ct.columns.foldl (fun acc col =>
        col.cards.foldl (accumCard pname) acc) m, e.2.person.id ∈ ids := by
  refine foldl_mem_pres _ _ _ ?_ m hm
  intro m2 col _ hm2 e2 he2
  exact foldl_mem_pres col.cards _ _
    (fun m3 c _ hm3 => accumCard_pres pname ids m3 c hm3) m2 hm2 e2 he2

/-- One workload loop iteration keeps every record with its person. -/
theorem workloadProject_pres (now : Int) (ids : List Nat) (m : WMap)
    (p : Project) (hm : ∀ e ∈ m, e.2.person.id ∈ ids) :
    ∀ e ∈ workloadProject now m p, e.2.person.id ∈ ids := by
  unfold workloadProject
  split
  · exact hm
  · dsimp only
    split
    · apply cardStage_pres
      split
      · apply todosetStage_pres
        exact hm
      · exact hm
    · split
      · apply todosetStage_pres
        exact hm
      · exact hm

/-- The person stored in a record survives the whole workload
accumulation: every record of the folded map belongs to a person of the
initial people fetch. -/
theorem workloadFold_person (now : Int) (people : List Person)
    (projects : List Project) :
    ∀ e ∈ projects.foldl (workloadProject now) (initWorkloadMap people),
      e.2.person.id ∈ people.map Person.id := by
  have hinit : ∀ e ∈ initWorkloadMap people,
      e.2.person.id ∈ people.map Person.id := by
    unfold initWorkloadMap
    apply foldl_mem_pres people _ (fun e => e.2.person.id ∈ people.map Person.id)
    · intro m p hp hm e he
      rcases setEntry_mem_cases m p.id _ e he with h | h
      · exact hm e h
      · rw [h]
        exact List.mem_map_of_mem Person.id hp
    · intro e he
      simp at he
  exact foldl_mem_pres projects _ _
    (fun m p _ hm => workloadProject_pres now (people.map Person.id) m p hm)
    _ hinit

/-- C10: an assignment whose assignee ids are all unknown to the people
directory is silently ignored by workload analysis — crediting such a todo
or card leaves the workload map completely unchanged (no counter bumped,
no overdue detail added, no entry created) — and consequently every output
entry belongs to a person of the people fetch. -/
theorem c10_unknown_assignee_ignored :
    (∀ (now : Int) (pn tl : List Char) (m : WMap) (t : Todo),
        (∀ a ∈ t.assigneeIds, a ∉ keys m) → accumTodo now pn tl m t = m) ∧
    (∀ (pn : List Char) (m : WMap) (c : Card),
        (∀ a ∈ c.assigneeIds, a ∉ keys m) → accumCard pn m c = m) ∧
    (∀ (sortBy : WorkloadSortBy) (now : Int) (people : List Person)
        (projects : List Project) (entry : WorkloadEntry),
        entry ∈ getAssignmentWorkload sortBy now people projects →
        entry.person.id ∈ people.map Person.id) := by
  refine ⟨accumTodo_unknown, accumCard_unknown, ?_⟩
  intro s now people projects entry he
  rcases getAssignmentWorkload_mem s now people projects entry he with
    ⟨e, hem, hfe⟩
  subst hfe
  exact workloadFold_person now people projects e hem

/-- Witness for C10: a todo and a card assigned only to the unknown user
999 leave the one-person workload map unchanged, and a concrete output
entry's person id indeed comes from the people list. -/
theorem c10_unknown_assignee_ignored_witness :
    accumTodo 0 [] [] (initWorkloadMap [alicePerson])
        ⟨9, [], [999], false, none⟩ = initWorkloadMap [alicePerson] ∧
    accumCard [] (initWorkloadMap [alicePerson]) ⟨9, [], [999]⟩ =
      initWorkloadMap [alicePerson] ∧
    (finalizeWorkload ⟨mkWPerson alicePerson, 0, 0, 0, 0, [], []⟩).person.id ∈
      [alicePerson, bobPerson].map Person.id :=
  ⟨c10_unknown_assignee_ignored.1 0 [] [] (initWorkloadMap [alicePerson])
      ⟨9, [], [999], false, none⟩ (by decide),
    c10_unknown_assignee_ignored.2.1 [] (initWorkloadMap [alicePerson])
      ⟨9, [], [999]⟩ (by decide),
    c10_unknown_assignee_ignored.2.2 WorkloadSortBy.workload 0
      [alicePerson, bobPerson] []
      (finalizeWorkload ⟨mkWPerson alicePerson, 0, 0, 0, 0, [], []⟩)
      (by decide)⟩

end Basecamp
